import Mathlib

/-!
Verification of the thin-provisioning-tools dump/migrate core against its
specification.  The definitions below are shallow embeddings of the Rust
sources:

* `src/thin/dump.rs` — `RunBuilder`, `MappingVisitor`, `emit_leaves`,
  `emit_entries`, `dump_metadata`;
* `src/commands/utils.rs` — `is_xml`, `is_xml_file`, `check_not_xml`,
  `to_exit_code`;
* `src/pdata/space_map/allocated_blocks.rs` — `allocated_blocks`;
* `src/thin/migrate/base.rs` — `open_dest_dev`, `open_dest_file`,
  `open_dest`, `copy_regions`, `migrate`;
* `tests/thin_dump.rs` — the expected repaired-superblock timestamp
  computed by `repair_device_details_tree`.

Machine integers (`u32`, `u64`) are modelled as `Nat`; where the source
truncates (the `as u32` cast in `allocated_blocks`) the model takes the
value modulo `2 ^ 32` explicitly.  Fallible Rust functions returning
`Result` are modelled with `Except`; a reachable `todo!()` is modelled as
`Option.none` (no result is ever produced).
-/

/-! ## The intermediate representation (`src/thin/ir.rs`, fields as used by
`src/thin/dump.rs`) -/

/-- Embedding of `ir::Map`: an emitted mapping run
`(thin_begin, data_begin, time, len)`. -/
structure ir.Map where
  thin_begin : Nat
  data_begin : Nat
  time : Nat
  len : Nat
deriving DecidableEq, Repr

/-- Embedding of `ir::Superblock` as built by `to_superblock_ir` in
`src/thin/dump.rs`. -/
structure ir.Superblock where
  uuid : String
  time : Nat
  transaction : Nat
  flags : Option Nat
  version : Option Nat
  data_block_size : Nat
  nr_data_blocks : Nat
  metadata_snap : Option Nat
deriving DecidableEq, Repr

/-- Embedding of `ir::Device` as built inside `dump_metadata` in
`src/thin/dump.rs`. -/
structure ir.Device where
  dev_id : Nat
  mapped_blocks : Nat
  transaction : Nat
  creation_time : Nat
  snap_time : Nat
deriving DecidableEq, Repr

/-! ## The mapping-run coalescer (`RunBuilder` in `src/thin/dump.rs`) -/

/-- Embedding of `struct RunBuilder`: it holds at most one "open" run. -/
structure RunBuilder where
  run : Option ir.Map
deriving DecidableEq, Repr

/-- Embedding of `RunBuilder::new`. -/
def RunBuilder.new : RunBuilder := ⟨none⟩

/-- Embedding of `RunBuilder::next` from `src/thin/dump.rs`.  The Rust
method mutates `self` and returns the flushed run (if any); the model
returns the pair (emitted run, new state).  With no open run it opens a
run of length 1 and emits nothing; with an open run it extends it when
`thin_block == thin_begin + len && data_block == data_begin + len &&
mtime == time`, and otherwise `self.run.replace(..)` emits the old open
run and opens a fresh run of length 1. -/
def RunBuilder.next (b : RunBuilder) (thin_block data_block time : Nat) :
    Option ir.Map × RunBuilder :=
  match b.run with
  | none =>
      (none, ⟨some ⟨thin_block, data_block, time, 1⟩⟩)
  | some m =>
      if thin_block = m.thin_begin + m.len ∧ data_block = m.data_begin + m.len ∧
          m.time = time then
        (none, ⟨some ⟨m.thin_begin, m.data_begin, m.time, m.len + 1⟩⟩)
      else
        (some m, ⟨some ⟨thin_block, data_block, time, 1⟩⟩)

/-- Embedding of `RunBuilder::complete`: `self.run.take()` hands back the
open run (if any) and leaves the builder empty. -/
def RunBuilder.complete (b : RunBuilder) : Option ir.Map × RunBuilder :=
  (b.run, ⟨none⟩)

/-- Feeding a list of `(thin_block, data_block, time)` entries through
`RunBuilder.next`, as `MappingVisitor::visit` does for the zipped
keys/values of each leaf; returns the runs emitted along the way together
with the final builder state. -/
def RunBuilder.feed (b : RunBuilder) :
    List (Nat × Nat × Nat) → List ir.Map × RunBuilder
  | [] => ([], b)
  | (tb, db, t) :: rest =>
      let p := b.next tb db t
      let q := p.2.feed rest
      (p.1.toList ++ q.1, q.2)

/-- The full run sequence produced for an input stream: every run emitted
by `RunBuilder.next` followed by the final `RunBuilder.complete` flush
(`MappingVisitor::end_walk`). -/
def runsOf (xs : List (Nat × Nat × Nat)) : List ir.Map :=
  let p := RunBuilder.new.feed xs
  let c := p.2.complete
  p.1 ++ c.1.toList

/-- Expansion of one emitted run back into its mapping triples
`(thin_begin + j, data_begin + j, time)` for `j < len`. -/
def expandRun (m : ir.Map) : List (Nat × Nat × Nat) :=
  (List.range m.len).map (fun j => (m.thin_begin + j, m.data_begin + j, m.time))

/-- Expansion of an optional open run (none expands to nothing). -/
def expandOpen : Option ir.Map → List (Nat × Nat × Nat)
  | none => []
  | some m => expandRun m

/-! ## The metadata model (`src/thin/metadata.rs`, fields as used by
`src/thin/dump.rs`) -/

/-- Embedding of `Entry`: a mapping subtree flattened to owned leaves and
references to shared definitions. -/
inductive Entry where
  | Leaf (loc : Nat)
  | Ref (id : Nat)
deriving DecidableEq, Repr

/-- Embedding of the entry list of a device mapping (`map.entries`). -/
structure DevMap where
  entries : List Entry
deriving DecidableEq, Repr

/-- Embedding of a shared definition (`md.defs` elements, with `def_id`
and `map.entries` as read by `dump_metadata`). -/
structure Def where
  def_id : Nat
  map : DevMap
deriving DecidableEq, Repr

/-- Embedding of the device details record (`dev.detail`). -/
structure DeviceDetail where
  mapped_blocks : Nat
  transaction_id : Nat
  creation_time : Nat
  snapshotted_time : Nat
deriving DecidableEq, Repr

/-- Embedding of a thin device (`md.devs` elements). -/
structure Device where
  thin_id : Nat
  detail : DeviceDetail
  map : DevMap
deriving DecidableEq, Repr

/-- Embedding of `Metadata { defs, devs }`. -/
structure Metadata where
  defs : List Def
  devs : List Device
deriving DecidableEq, Repr

/-! ## The emitter event stream (`MetadataVisitor` callbacks,
`src/thin/ir.rs`) -/

/-- One `MetadataVisitor` callback, reified as an event.  Shared-def ids
are emitted by `dump.rs` via `format!` of the numeric id; the model keeps
the number. -/
inductive Event where
  | superblock_b (sb : ir.Superblock)
  | superblock_e
  | def_shared_b (id : Nat)
  | def_shared_e
  | device_b (d : ir.Device)
  | device_e
  | map (m : ir.Map)
  | ref_shared (id : Nat)
  | eof
deriving DecidableEq, Repr

/-- True for the events `emit_entries` may produce (`map` and
`ref_shared`). -/
def is_map_or_ref : Event → Bool
  | .map _ => true
  | .ref_shared _ => true
  | _ => false

/-- Embedding of `emit_leaves` in `src/thin/dump.rs`.  `leafData loc`
stands for the `(key, BlockTime.block, BlockTime.time)` triples of the
leaf node stored at `loc` (the successful result of `emit_leaf`'s
checksum check and `unpack_node`).  A fresh `MappingVisitor` feeds every
leaf entry through its `RunBuilder` and `end_walk` flushes the final
run; each produced run becomes a `map` event on the output visitor. -/
def emit_leaves (leafData : Nat → List (Nat × Nat × Nat)) (leaves : List Nat) :
    List Event :=
  (runsOf ((leaves.map leafData).flatten)).map Event.map

/-- Loop body of `emit_entries` in `src/thin/dump.rs`: `Leaf` locations
accumulate in `leaves`; a `Ref` first flushes the accumulated leaves
through `emit_leaves` (if non-empty) and then emits `ref_shared`; the
trailing accumulated leaves are flushed at the end. -/
def emit_entries_go (leafData : Nat → List (Nat × Nat × Nat)) :
    List Entry → List Nat → List Event
  | [], leaves =>
      if leaves.isEmpty then [] else emit_leaves leafData leaves
  | .Leaf b :: rest, leaves =>
      emit_entries_go leafData rest (leaves ++ [b])
  | .Ref id :: rest, leaves =>
      (if leaves.isEmpty then [] else emit_leaves leafData leaves) ++
        Event.ref_shared id :: emit_entries_go leafData rest []

/-- Embedding of `emit_entries` in `src/thin/dump.rs`. -/
def emit_entries (leafData : Nat → List (Nat × Nat × Nat))
    (entries : List Entry) : List Event :=
  emit_entries_go leafData entries []

/-- The `ir::Device` record `dump_metadata` builds from a `Device`. -/
def device_ir (dev : Device) : ir.Device :=
  ⟨dev.thin_id, dev.detail.mapped_blocks, dev.detail.transaction_id,
    dev.detail.creation_time, dev.detail.snapshotted_time⟩

/-- Embedding of `dump_metadata` in `src/thin/dump.rs` as the sequence of
events it drives through the output visitor: `superblock_b`, then one
`def_shared_b`/`def_shared_e` block per shared definition (in order),
then one `device_b`/`device_e` block per device (in order), then
`superblock_e` and `eof`.  The superblock argument is the already
converted `to_superblock_ir` result. -/
def dump_metadata (leafData : Nat → List (Nat × Nat × Nat))
    (sb : ir.Superblock) (md : Metadata) : List Event :=
  let out1 := [Event.superblock_b sb]
  let out2 := md.defs.foldl
    (fun out d =>
      out ++ (Event.def_shared_b d.def_id ::
        emit_entries leafData d.map.entries ++ [Event.def_shared_e])) out1
  let out3 := md.devs.foldl
    (fun out dev =>
      out ++ (Event.device_b (device_ir dev) ::
        emit_entries leafData dev.map.entries ++ [Event.device_e])) out2
  out3 ++ [Event.superblock_e, Event.eof]

/-! ## CLI utilities (`src/commands/utils.rs`) -/

/-- Bytes of a string literal, for the magic prefixes checked by
`is_xml`. -/
def bytesOf (s : String) : List Nat :=
  s.toList.map Char.toNat

/-- Embedding of `is_xml` in `src/commands/utils.rs`: the buffer starts
with one of the byte prefixes `<superblock`, `?xml` or `<!DOCTYPE`. -/
def is_xml (line : List Nat) : Bool :=
  (bytesOf "<superblock").isPrefixOf line || (bytesOf "?xml").isPrefixOf line ||
    (bytesOf "<!DOCTYPE").isPrefixOf line

/-- Embedding of `is_xml_file` in `src/commands/utils.rs`.  The file is
modelled by its byte contents when it can be opened (`none` models an
open failure).  `read_exact` into the 16-byte buffer fails unless the
file holds at least 16 bytes; on success the buffer is the first 16
bytes.  Failures are `Except.error`. -/
def is_xml_file (file : Option (List Nat)) : Except Unit Bool :=
  match file with
  | none => .error ()
  | some data =>
      if data.length < 16 then .error () else .ok (is_xml (data.take 16))

/-- Embedding of `check_not_xml` in `src/commands/utils.rs`: only the
`Ok(true)` result of `is_xml_file` is rejected; an `Ok(false)` or any
read error silently accepts the input file and returns it unchanged. -/
def check_not_xml (file : Option (List Nat)) :
    Except String (Option (List Nat)) :=
  match is_xml_file file with
  | .ok true =>
      .error "This looks like XML.  This tool only supports the binary metadata format."
  | _ => .ok file

/-- Kind of a Rust `std::io::Error`, as far as `to_exit_code` inspects
it. -/
inductive IOKind where
  | brokenPipe
  | other
deriving DecidableEq, Repr

/-- Root cause of an `anyhow::Error`: an `std::io::Error` (possibly
wrapped in an `Arc`, as `quick_xml::Error::Io` does) or anything else. -/
inductive RootCause where
  | io (kind : IOKind) (wrapped_in_arc : Bool)
  | nonIo
deriving DecidableEq, Repr

/-- Embedding of an `anyhow::Error` as `to_exit_code` observes it: its
display message, the root cause's display message, the chain length, and
the downcastable root cause. -/
structure AnyhowError where
  msg : String
  root_msg : String
  chain_len : Nat
  root : RootCause
deriving DecidableEq, Repr

/-- The broken-pipe test of `to_exit_code`: downcast the root cause to
`Arc<std::io::Error>` or `std::io::Error` and compare the kind with
`BrokenPipe`.  Both downcast routes reach the same kind check. -/
def is_broken_pipe (e : AnyhowError) : Bool :=
  match e.root with
  | .io .brokenPipe _ => true
  | _ => false

/-- Embedding of `exitcode::OK`. -/
def exitcode.OK : Int := 0

/-- Embedding of `exitcode::USAGE`. -/
def exitcode.USAGE : Int := 64

/-- Embedding of `to_exit_code` in `src/commands/utils.rs`, returning the
exit code together with the lines written to stderr via `report.fatal`.
On error: unless the root cause is a broken pipe, exactly one line is
reported (message plus root cause when the chain has several links); the
function then returns `exitcode::USAGE` in every error case.  On success
it returns `exitcode::OK`. -/
def to_exit_code (result : Except AnyhowError Unit) : Int × List String :=
  match result with
  | .ok _ => (exitcode.OK, [])
  | .error e =>
      let stderr :=
        if is_broken_pipe e then []
        else if e.chain_len > 1 then [e.msg ++ ": " ++ e.root_msg]
        else [e.msg]
      (exitcode.USAGE, stderr)

/-! ## The allocated-blocks space-map reader
(`src/pdata/space_map/allocated_blocks.rs`) -/

/-- Embedding of a bitmap entry (`BitmapEntry` in
`src/pdata/space_map/common.rs`): a small 2-bit count or an overflow
marker. -/
inductive BitmapEntry where
  | Small (v : Nat)
  | Overflow
deriving DecidableEq, Repr

/-- Embedding of `struct IndexInfo` in `allocated_blocks.rs`. -/
structure IndexInfo where
  key : Nat
  loc : Nat
deriving DecidableEq, Repr

/-- The `IndexInfo` list built from the metadata index: `enumerate` pairs
each index entry's position (its key) with the entry's `blocknr`. -/
def infosOf (indexes : List Nat) : List IndexInfo :=
  indexes.enum.map (fun p => ⟨p.1, p.2⟩)

/-- Body of the inner loop of `allocated_blocks`: entry `i` of the bitmap
inserts bit `(base + i) as u32` unless it is `Small(0)`.  The `as u32`
cast is the modulus. -/
def sm_step (epb key : Nat) (acc : Finset Nat) (p : Nat × BitmapEntry) :
    Finset Nat :=
  if p.2 = BitmapEntry.Small 0 then acc
  else insert ((key * epb + p.1) % 2 ^ 32) acc

/-- The inner loop of `allocated_blocks` over one bitmap block's
entries. -/
def bitmap_fold (epb key : Nat) (entries : List BitmapEntry)
    (bits : Finset Nat) : Finset Nat :=
  entries.enum.foldl (sm_step epb key) bits

/-- Embedding of `allocated_blocks` in
`src/pdata/space_map/allocated_blocks.rs`.  `indexes` is the `blocknr`
list of the metadata index entries (the `load_metadata_index` result, in
key order) and `read loc` the unpacked `Bitmap` entries of the block at
`loc` (`engine.read` plus `Bitmap::unpack`); `epb` is the
`ENTRIES_PER_BITMAP` constant.  The infos are sorted by `loc` for
sequential reads and folded into one sparse bitmap. -/
def allocated_blocks (epb : Nat) (indexes : List Nat)
    (read : Nat → List BitmapEntry) : Finset Nat :=
  (List.insertionSort (fun a b => a.loc ≤ b.loc) (infosOf indexes)).foldl
    (fun bits info => bitmap_fold epb info.key (read info.loc) bits) ∅

/-! ## The migrate driver (`src/thin/migrate/base.rs`) -/

/-- Embedding of `ChunkContents` from `src/thin/migrate/stream.rs` as
consumed by `copy_regions`. -/
inductive ChunkContents where
  | Skip
  | Copy
  | Discard
deriving DecidableEq, Repr

/-- Embedding of a stream `Chunk { offset, len, contents }` (byte
offsets). -/
structure Chunk where
  offset : Nat
  len : Nat
  contents : ChunkContents
deriving DecidableEq, Repr

/-- Embedding of `CopyOp { src, dst }` (block numbers). -/
structure CopyOp where
  src : Nat
  dst : Nat
deriving DecidableEq, Repr

/-- The copy operations one chunk pushes into the batcher in
`copy_regions`: nothing for `Skip`; for `Copy` one op per block `b` in
`offset / block_size .. (offset + len) / block_size` with
`src == dst == b`; the `Discard` arm is `todo!()`, an unimplemented
panic, modelled as `none`. -/
def chunk_ops (block_size : Nat) (c : Chunk) : Option (List CopyOp) :=
  match c.contents with
  | .Skip => some []
  | .Copy =>
      let first := c.offset / block_size
      let stop := (c.offset + c.len) / block_size
      some ((List.range' first (stop - first)).map (fun b => ⟨b, b⟩))
  | .Discard => none

/-- Embedding of the chunk loop of `copy_regions` in
`src/thin/migrate/base.rs`: the chunks of the stream are processed in
order and their copy ops pushed into the batcher; hitting the `Discard`
arm panics, so no result is produced (`none`). -/
def copy_regions (chunks : List Chunk) (block_size : Nat) :
    Option (List CopyOp) :=
  match chunks with
  | [] => some []
  | c :: rest =>
      match chunk_ops block_size c with
      | none => none
      | some ops => (copy_regions rest block_size).map (fun more => ops ++ more)

/-- Embedding of `DestArgs`: a device destination or a file destination
with its `create` flag.  The model drops the paths; the state of the
destination is passed separately as its current length. -/
inductive DestArgs where
  | Dev
  | File (create : Bool)
deriving DecidableEq, Repr

/-- Embedding of `open_dest_dev` in `src/thin/migrate/base.rs`.
`dest_len` is the destination's current length, `none` when opening
fails.  After opening, the length is compared against the source length
and a mismatch is an error. -/
def open_dest_dev (dest_len : Option Nat) (expected_len : Nat) :
    Except String Nat :=
  match dest_len with
  | none => .error "open failed"
  | some actual =>
      if actual ≠ expected_len then .error "lengths differ"
      else .ok actual

/-- Embedding of `open_dest_file` in `src/thin/migrate/base.rs`.  With
`create` the file is opened with `create(true)` and `set_len` truncates
it to exactly the source length; without `create` the existing file's
length must equal the source length. -/
def open_dest_file (create : Bool) (dest_len : Option Nat)
    (expected_len : Nat) : Except String Nat :=
  if create then .ok expected_len
  else
    match dest_len with
    | none => .error "open failed"
    | some actual =>
        if actual ≠ expected_len then .error "lengths differ"
        else .ok actual

/-- Embedding of `open_dest` in `src/thin/migrate/base.rs`. -/
def open_dest (dst : DestArgs) (dest_len : Option Nat) (expected_len : Nat) :
    Except String Nat :=
  match dst with
  | .Dev => open_dest_dev dest_len expected_len
  | .File create => open_dest_file create dest_len expected_len

/-- Embedding of `migrate` in `src/thin/migrate/base.rs`, restricted to
the phases the destination claims concern: the destination is opened
(and length-checked) before `copy_regions` runs, so an `open_dest` error
propagates before any copy op is pushed into the batcher.  The result on
success is the batched op list (or `none` when `copy_regions` hit the
`Discard` panic). -/
def migrate (dst : DestArgs) (dest_len : Option Nat) (expected_len : Nat)
    (chunks : List Chunk) (block_size : Nat) :
    Except String (Option (List CopyOp)) :=
  match open_dest dst dest_len expected_len with
  | .error e => .error e
  | .ok _ => .ok (copy_regions chunks block_size)

/-! ## The repaired-superblock timestamp (`tests/thin_dump.rs`) -/

/-- Embedding of the maximum recovered `snapshotted_time` computed by
`repair_device_details_tree` in `tests/thin_dump.rs`:
`.map(snapshotted_time).max().unwrap_or(0)` (for `Nat` the fold with
base 0 agrees with the iterator maximum). -/
def max_snap_time (snap_times : List Nat) : Nat :=
  snap_times.foldr max 0

/-- Embedding of the repaired-superblock timestamp the repository's own
tests pin down.  `repair_device_details_tree` in `tests/thin_dump.rs`
asserts `repaired_sb.time == std::cmp::max(orig_sb.time, orig_ts + 1)`
where `orig_ts` is `max_snap_time`; `preserve_timestamp_of_stale_superblock`
asserts the special case `time = 2`, `snap_time = 1` is left at `2`. -/
def expected_repair_time (sb_time : Nat) (snap_times : List Nat) : Nat :=
  max sb_time (max_snap_time snap_times + 1)

/-- Formula claimed by the specification: bump to
`max(existing_time, max_snapshotted_time) + 1`. -/
def claimed_repair_time (sb_time : Nat) (snap_times : List Nat) : Nat :=
  max sb_time (max_snap_time snap_times) + 1

/-! ## Theorems -/

/-- C1: with a run open, `RunBuilder.next` extends the open run by one
(emitting nothing) iff `thin_block = thin_begin + len`,
`data_block = data_begin + len` and the time equals the open run's time;
in every other case with a run open it emits the previously open run and
opens a run of length 1 at the new entry; with no run open it opens a
run of length 1 and emits nothing. -/
theorem runbuilder_next_spec (m : ir.Map) (tb db t : Nat) :
    (RunBuilder.next ⟨some m⟩ tb db t =
        (none, ⟨some ⟨m.thin_begin, m.data_begin, m.time, m.len + 1⟩⟩) ↔
      (tb = m.thin_begin + m.len ∧ db = m.data_begin + m.len ∧ m.time = t))
    ∧ (¬(tb = m.thin_begin + m.len ∧ db = m.data_begin + m.len ∧ m.time = t) →
        RunBuilder.next ⟨some m⟩ tb db t = (some m, ⟨some ⟨tb, db, t, 1⟩⟩))
    ∧ RunBuilder.next ⟨none⟩ tb db t = (none, ⟨some ⟨tb, db, t, 1⟩⟩) := by
  refine ⟨?_, ?_, rfl⟩
  · by_cases h : tb = m.thin_begin + m.len ∧ db = m.data_begin + m.len ∧ m.time = t
    · simp [RunBuilder.next, h]
    · simp [RunBuilder.next, h]
  · intro h
    simp [RunBuilder.next, h]

/-- Witness for C1 at a concrete open run `(0, 100, time 5, len 1)`: the
entry `(1, 101, 5)` extends it to length 2 with nothing emitted, while
the non-contiguous entry `(7, 101, 5)` flushes it and opens a fresh
length-1 run. -/
theorem runbuilder_next_spec_witness :
    RunBuilder.next ⟨some ⟨0, 100, 5, 1⟩⟩ 1 101 5 =
        (none, ⟨some ⟨0, 100, 5, 2⟩⟩) ∧
      RunBuilder.next ⟨some ⟨0, 100, 5, 1⟩⟩ 7 101 5 =
        (some ⟨0, 100, 5, 1⟩, ⟨some ⟨7, 101, 5, 1⟩⟩) :=
  ⟨(runbuilder_next_spec ⟨0, 100, 5, 1⟩ 1 101 5).1.mpr (by decide),
    (runbuilder_next_spec ⟨0, 100, 5, 1⟩ 7 101 5).2.1 (by decide)⟩

theorem expandRun_succ (a b t l : Nat) :
    expandRun ⟨a, b, t, l + 1⟩ = expandRun ⟨a, b, t, l⟩ ++ [(a + l, b + l, t)] := by
  simp [expandRun, List.range_succ]

theorem next_expand (b : RunBuilder) (tb db t : Nat) :
    ((b.next tb db t).1.toList.map expandRun).flatten ++
        expandOpen (b.next tb db t).2.run =
      expandOpen b.run ++ [(tb, db, t)] := by
  obtain ⟨st⟩ := b
  cases st with
  | none => simp [RunBuilder.next, expandOpen, expandRun, List.range_succ, List.range_zero]
  | some m =>
      by_cases h : tb = m.thin_begin + m.len ∧ db = m.data_begin + m.len ∧
          m.time = t
      · obtain ⟨h1, h2, h3⟩ := h
        subst h1; subst h2; subst h3
        simp [RunBuilder.next, expandOpen, expandRun_succ]
      · simp [RunBuilder.next, h, expandOpen, expandRun, List.range_succ, List.range_zero]

theorem feed_expand (xs : List (Nat × Nat × Nat)) : ∀ b : RunBuilder,
    ((b.feed xs).1.map expandRun).flatten ++ expandOpen (b.feed xs).2.run =
      expandOpen b.run ++ xs := by
  induction xs with
  | nil => intro b; simp [RunBuilder.feed]
  | cons x rest ih =>
      intro b
      obtain ⟨tb, db, t⟩ := x
      simp only [RunBuilder.feed]
      rw [List.map_append, List.flatten_append, List.append_assoc, ih _,
        ← List.append_assoc, next_expand]
      simp

theorem runs_expand (xs : List (Nat × Nat × Nat)) :
    ((runsOf xs).map expandRun).flatten = xs := by
  have h2 : ∀ st : Option ir.Map, (st.toList.map expandRun).flatten = expandOpen st := by
    intro st; cases st <;> simp [expandOpen]
  have h := feed_expand xs RunBuilder.new
  simp only [runsOf, RunBuilder.complete]
  rw [List.map_append, List.flatten_append, h2]
  simpa [RunBuilder.new, expandOpen] using h

/-- C2: the run coalescer preserves the bag of
`(thin_block, data_block, time)` triples: for every input sequence fed
through `RunBuilder.next` and flushed by `RunBuilder.complete`, expanding
every emitted run yields exactly the input multiset (in fact exactly the
input sequence, so every input entry appears in exactly one emitted
run). -/
theorem runbuilder_preserves_multiset (xs : List (Nat × Nat × Nat)) :
    (↑(((runsOf xs).map expandRun).flatten) : Multiset (Nat × Nat × Nat)) = ↑xs := by
  rw [runs_expand]

/-- C3 counterexample: at a concrete error whose root cause is a broken
pipe, `to_exit_code` stays silent but returns `exitcode::USAGE` (64),
not exit code 0 as the claim states. -/
theorem to_exit_code_broken_pipe_counterexample :
    to_exit_code (Except.error ⟨"msg", "broken pipe", 1,
        RootCause.io IOKind.brokenPipe true⟩) = (64, []) ∧
      (64 : Int) ≠ 0 :=
  ⟨rfl, by decide⟩

/-- C3 (amended): a success result returns `exitcode::OK` (0) with no
stderr; an error whose root cause is a broken pipe returns
`exitcode::USAGE` (64) with nothing written to stderr; any other error
returns 64 with a single error line reported to stderr. -/
theorem to_exit_code_spec (e : AnyhowError) (u : Unit) :
    to_exit_code (Except.ok u) = (exitcode.OK, [])
    ∧ (is_broken_pipe e = true →
        to_exit_code (Except.error e) = (exitcode.USAGE, []))
    ∧ (is_broken_pipe e = false →
        ∃ line, to_exit_code (Except.error e) = (exitcode.USAGE, [line])) := by
  refine ⟨rfl, ?_, ?_⟩
  · intro h
    simp [to_exit_code, h]
  · intro h
    by_cases hc : e.chain_len > 1
    · exact ⟨e.msg ++ ": " ++ e.root_msg, by simp [to_exit_code, h, hc]⟩
    · exact ⟨e.msg, by simp [to_exit_code, h, hc]⟩

/-- Witness for C3 (amended) at two concrete errors: a broken-pipe error
exits 64 silently, a plain error exits 64 with one stderr line. -/
theorem to_exit_code_spec_witness :
    to_exit_code (Except.error ⟨"a", "b", 1, RootCause.io IOKind.brokenPipe false⟩) =
        (exitcode.USAGE, [])
    ∧ ∃ line, to_exit_code (Except.error ⟨"a", "b", 1, RootCause.nonIo⟩) =
        (exitcode.USAGE, [line]) :=
  ⟨(to_exit_code_spec ⟨"a", "b", 1, RootCause.io IOKind.brokenPipe false⟩ ()).2.1 rfl,
    (to_exit_code_spec ⟨"a", "b", 1, RootCause.nonIo⟩ ()).2.2 rfl⟩

/-- C4 counterexample: with existing superblock time 2 and one recovered
device with snapshotted time 1 (the `preserve_timestamp_of_stale_superblock`
scenario), the repository's tests pin the repaired timestamp to
`max(2, 1 + 1) = 2`, while the claimed formula `max(2, 1) + 1` gives 3. -/
theorem repair_time_counterexample :
    expected_repair_time 2 [1] = 2 ∧ claimed_repair_time 2 [1] = 3 ∧
      expected_repair_time 2 [1] ≠ claimed_repair_time 2 [1] := by
  decide

theorem le_max_snap_time (snaps : List Nat) : ∀ s ∈ snaps, s ≤ max_snap_time snaps := by
  induction snaps with
  | nil => intro s h; simp at h
  | cons a l ih =>
      intro s h
      simp only [max_snap_time, List.foldr_cons]
      rcases List.mem_cons.mp h with h | h
      · exact h ▸ le_max_left _ _
      · exact le_trans (ih s h) (le_max_right _ _)

/-- C4 (amended): the rebuilt superblock's timestamp equals
`max(existing_time, max_snapshotted_time + 1)`: it is never below the
existing time, strictly exceeds every recovered device's
`snapshotted_time`, is preserved unchanged when the existing time already
exceeds all snapshotted times, and coincides with the claimed formula
`max(existing_time, max_snapshotted_time) + 1` exactly when the existing
time does not exceed the maximal snapshotted time. -/
theorem repair_time_amended (t : Nat) (snaps : List Nat) :
    t ≤ expected_repair_time t snaps
    ∧ (∀ s ∈ snaps, s < expected_repair_time t snaps)
    ∧ (max_snap_time snaps < t → expected_repair_time t snaps = t)
    ∧ (t ≤ max_snap_time snaps →
        expected_repair_time t snaps = claimed_repair_time t snaps) := by
  refine ⟨le_max_left _ _, ?_, ?_, ?_⟩
  · intro s hm
    calc s ≤ max_snap_time snaps := le_max_snap_time snaps s hm
      _ < max_snap_time snaps + 1 := Nat.lt_succ_self _
      _ ≤ expected_repair_time t snaps := le_max_right _ _
  · intro h
    exact Nat.max_eq_left (by omega)
  · intro h
    unfold expected_repair_time claimed_repair_time
    rw [Nat.max_eq_right h, Nat.max_eq_right (le_trans h (Nat.le_succ _))]

/-- Witness for C4 (amended) at concrete inputs: existing time 2 with
snapshot times `[1]` is preserved at 2 and exceeds the snapshot time;
existing time 1 with snapshot times `[1]` agrees with the claimed
formula. -/
theorem repair_time_amended_witness :
    expected_repair_time 2 [1] = 2 ∧ 1 < expected_repair_time 2 [1] ∧
      expected_repair_time 1 [1] = claimed_repair_time 1 [1] :=
  ⟨(repair_time_amended 2 [1]).2.2.1 (by decide),
    (repair_time_amended 2 [1]).2.1 1 (by simp),
    (repair_time_amended 1 [1]).2.2.2 (by decide)⟩

theorem check_not_xml_rejects_iff (f : Option (List Nat)) :
    (∃ e, check_not_xml f = Except.error e) ↔ is_xml_file f = Except.ok true := by
  unfold check_not_xml
  cases h : is_xml_file f with
  | error e => simp
  | ok b => cases b <;> simp

theorem is_xml_file_ok_true_iff (data : List Nat) :
    is_xml_file (some data) = Except.ok true ↔
      (16 ≤ data.length ∧ is_xml (data.take 16) = true) := by
  simp only [is_xml_file]
  by_cases hlen : data.length < 16
  · rw [if_pos hlen]
    simp
    omega
  · have hlen' : 16 ≤ data.length := Nat.not_lt.mp hlen
    rw [if_neg hlen]
    simp [hlen']

theorem is_xml_take_iff (data : List Nat) :
    is_xml (data.take 16) = true ↔
      (bytesOf "<superblock" <+: data ∨ bytesOf "?xml" <+: data ∨
        bytesOf "<!DOCTYPE" <+: data) := by
  have l1 : (bytesOf "<superblock").length ≤ 16 := by decide
  have l2 : (bytesOf "?xml").length ≤ 16 := by decide
  have l3 : (bytesOf "<!DOCTYPE").length ≤ 16 := by decide
  simp only [is_xml, Bool.or_eq_true, List.isPrefixOf_iff_prefix,
    List.prefix_take_iff]
  tauto

/-- C9: `check_not_xml` returns an error iff the file can be opened, the
16-byte read succeeds (the file holds at least 16 bytes) and the contents
begin with one of the byte prefixes `<superblock`, `?xml` or `<!DOCTYPE`;
in every other case — including an unopenable or shorter file — it
accepts the file and returns it unchanged. -/
theorem check_not_xml_spec (file : Option (List Nat)) :
    ((∃ e, check_not_xml file = Except.error e) ↔
      (∃ data, file = some data ∧ 16 ≤ data.length ∧
        (bytesOf "<superblock" <+: data ∨ bytesOf "?xml" <+: data ∨
          bytesOf "<!DOCTYPE" <+: data)))
    ∧ (check_not_xml file = Except.ok file ∨
        ∃ e, check_not_xml file = Except.error e) := by
  constructor
  · rw [check_not_xml_rejects_iff file]
    cases file with
    | none => simp [is_xml_file]
    | some data =>
        rw [is_xml_file_ok_true_iff data]
        constructor
        · rintro ⟨hl, hx⟩
          exact ⟨data, rfl, hl, (is_xml_take_iff data).mp hx⟩
        · rintro ⟨d, hd, hl, hx⟩
          injection hd with hd'
          subst hd'
          exact ⟨hl, (is_xml_take_iff _).mpr hx⟩
  · unfold check_not_xml
    cases h : is_xml_file file with
    | error e => left; rfl
    | ok b =>
        cases b with
        | false => left; rfl
        | true => right; exact ⟨_, rfl⟩

/-- C7: when the destination is a device, or a file opened without
`create`, a destination length differing from the source length makes
`open_dest` fail, and `migrate` propagates that error before any copy
operation is pushed to the batcher; with `create` set the destination
file is truncated to exactly the source length instead. -/
theorem open_dest_spec (dst : DestArgs) (dest_len : Option Nat)
    (expected_len actual : Nat) (chunks : List Chunk) (block_size : Nat) :
    ((dst = DestArgs.Dev ∨ dst = DestArgs.File false) →
      dest_len = some actual → actual ≠ expected_len →
      ∃ e, open_dest dst dest_len expected_len = Except.error e ∧
        migrate dst dest_len expected_len chunks block_size = Except.error e)
    ∧ (∀ dl : Option Nat,
        open_dest (DestArgs.File true) dl expected_len = Except.ok expected_len) := by
  constructor
  · rintro (rfl | rfl) rfl hne
    · have h1 : open_dest DestArgs.Dev (some actual) expected_len =
          Except.error "lengths differ" := by
        simp [open_dest, open_dest_dev, hne]
      exact ⟨_, h1, by simp [migrate, h1]⟩
    · have h1 : open_dest (DestArgs.File false) (some actual) expected_len =
          Except.error "lengths differ" := by
        simp [open_dest, open_dest_file, hne]
      exact ⟨_, h1, by simp [migrate, h1]⟩
  · intro dl
    rfl

/-- Witness for C7: a 1024-byte device destination for a 2048-byte source
fails with no ops pushed; a created file destination is set to the
source length. -/
theorem open_dest_spec_witness :
    (∃ e, open_dest DestArgs.Dev (some 1024) 2048 = Except.error e ∧
      migrate DestArgs.Dev (some 1024) 2048 [] 128 = Except.error e)
    ∧ open_dest (DestArgs.File true) none 2048 = Except.ok 2048 :=
  ⟨(open_dest_spec DestArgs.Dev (some 1024) 2048 1024 [] 128).1 (Or.inl rfl) rfl
      (by decide),
    (open_dest_spec DestArgs.Dev (some 1024) 2048 1024 [] 128).2 none⟩

/-- C8: in `copy_regions`, a `Copy` chunk whose `offset` and
`offset + len` are multiples of the data block size pushes exactly
`len / block_size` copy operations, the `j`-th having
`src = dst = offset / block_size + j`; `Skip` chunks push nothing. -/
theorem copy_regions_copy_chunk_spec (block_size offset len : Nat)
    (hbs : 0 < block_size) (ho : block_size ∣ offset) (hl : block_size ∣ len)
    (rest : List Chunk) :
    chunk_ops block_size ⟨offset, len, ChunkContents.Copy⟩ =
        some ((List.range (len / block_size)).map
          (fun j => ⟨offset / block_size + j, offset / block_size + j⟩))
    ∧ chunk_ops block_size ⟨offset, len, ChunkContents.Skip⟩ = some []
    ∧ copy_regions (⟨offset, len, ChunkContents.Copy⟩ :: rest) block_size =
        (copy_regions rest block_size).map
          (fun more => ((List.range (len / block_size)).map
            (fun j => ⟨offset / block_size + j, offset / block_size + j⟩)) ++ more) := by
  obtain ⟨a, rfl⟩ := ho
  obtain ⟨b, rfl⟩ := hl
  have e1 : block_size * a / block_size = a := Nat.mul_div_cancel_left a hbs
  have e2 : (block_size * a + block_size * b) / block_size = a + b := by
    rw [← Nat.mul_add]
    exact Nat.mul_div_cancel_left _ hbs
  have e3 : block_size * b / block_size = b := Nat.mul_div_cancel_left b hbs
  have hco : chunk_ops block_size ⟨block_size * a, block_size * b, ChunkContents.Copy⟩ =
      some ((List.range (block_size * b / block_size)).map
        (fun j => ⟨block_size * a / block_size + j, block_size * a / block_size + j⟩)) := by
    simp only [chunk_ops, e1, e2, e3, Nat.add_sub_cancel_left]
    rw [List.range'_eq_map_range, List.map_map]
    rfl
  refine ⟨hco, rfl, ?_⟩
  simp only [copy_regions, hco]

/-- Witness for C8 at block size 128, offset 256, length 256: exactly two
copy ops, for blocks 2 and 3. -/
theorem copy_regions_copy_chunk_spec_witness :
    chunk_ops 128 ⟨256, 256, ChunkContents.Copy⟩ = some [⟨2, 2⟩, ⟨3, 3⟩] := by
  have h := (copy_regions_copy_chunk_spec 128 256 256 (by decide) ⟨2, rfl⟩ ⟨2, rfl⟩ []).1
  exact h.trans (by decide)

/-- C10: any stream yielding a `Discard` chunk drives `copy_regions` into
the unimplemented `todo!()` arm: the driver panics and produces no
result (modelled as `none`) rather than returning an error value. -/
theorem copy_regions_discard_panics (chunks : List Chunk) (block_size : Nat)
    (h : ∃ c ∈ chunks, c.contents = ChunkContents.Discard) :
    copy_regions chunks block_size = none := by
  induction chunks with
  | nil =>
      obtain ⟨c, hc, _⟩ := h
      simp at hc
  | cons c rest ih =>
      obtain ⟨d, hd, hdis⟩ := h
      rcases List.mem_cons.mp hd with rfl | hd'
      · simp [copy_regions, chunk_ops, hdis]
      · have hrest := ih ⟨d, hd', hdis⟩
        simp only [copy_regions, hrest]
        cases hc : chunk_ops block_size c <;> simp

/-- Witness for C10: a single `Discard` chunk makes the driver panic. -/
theorem copy_regions_discard_panics_witness :
    copy_regions [⟨0, 4096, ChunkContents.Discard⟩] 128 = none :=
  copy_regions_discard_panics [⟨0, 4096, ChunkContents.Discard⟩] 128
    ⟨⟨0, 4096, ChunkContents.Discard⟩, by simp, rfl⟩

theorem mem_sm_fold (epb key : Nat) (l : List (Nat × BitmapEntry))
    (acc : Finset Nat) (x : Nat) :
    x ∈ l.foldl (sm_step epb key) acc ↔
      x ∈ acc ∨ ∃ p ∈ l, p.2 ≠ BitmapEntry.Small 0 ∧
        x = (key * epb + p.1) % 2 ^ 32 := by
  induction l generalizing acc with
  | nil => simp
  | cons p rest ih =>
      rw [List.foldl_cons]
      by_cases hp : p.2 = BitmapEntry.Small 0
      · simp only [sm_step, if_pos hp]
        rw [ih]
        constructor
        · rintro (hx | ⟨q, hq, h1, h2⟩)
          · exact Or.inl hx
          · exact Or.inr ⟨q, List.mem_cons_of_mem _ hq, h1, h2⟩
        · rintro (hx | ⟨q, hq, h1, h2⟩)
          · exact Or.inl hx
          · rcases List.mem_cons.mp hq with rfl | hq'
            · exact absurd hp h1
            · exact Or.inr ⟨q, hq', h1, h2⟩
      · simp only [sm_step, if_neg hp]
        rw [ih]
        constructor
        · rintro (hx | ⟨q, hq, h1, h2⟩)
          · rcases Finset.mem_insert.mp hx with rfl | hx'
            · exact Or.inr ⟨p, List.mem_cons_self _ _, hp, rfl⟩
            · exact Or.inl hx'
          · exact Or.inr ⟨q, List.mem_cons_of_mem _ hq, h1, h2⟩
        · rintro (hx | ⟨q, hq, h1, h2⟩)
          · exact Or.inl (Finset.mem_insert_of_mem hx)
          · rcases List.mem_cons.mp hq with rfl | hq'
            · exact Or.inl (h2 ▸ Finset.mem_insert_self _ _)
            · exact Or.inr ⟨q, hq', h1, h2⟩

theorem mem_outer_fold (epb : Nat) (read : Nat → List BitmapEntry)
    (l : List IndexInfo) (acc : Finset Nat) (x : Nat) :
    x ∈ l.foldl (fun bits info => bitmap_fold epb info.key (read info.loc) bits) acc ↔
      x ∈ acc ∨ ∃ info ∈ l, ∃ p ∈ (read info.loc).enum,
        p.2 ≠ BitmapEntry.Small 0 ∧ x = (info.key * epb + p.1) % 2 ^ 32 := by
  induction l generalizing acc with
  | nil => simp
  | cons info rest ih =>
      rw [List.foldl_cons, ih]
      simp only [bitmap_fold]
      rw [mem_sm_fold]
      constructor
      · rintro ((hx | ⟨p, hp, h1, h2⟩) | ⟨q, hq, h⟩)
        · exact Or.inl hx
        · exact Or.inr ⟨info, List.mem_cons_self _ _, p, hp, h1, h2⟩
        · exact Or.inr ⟨q, List.mem_cons_of_mem _ hq, h⟩
      · rintro (hx | ⟨q, hq, h⟩)
        · exact Or.inl (Or.inl hx)
        · rcases List.mem_cons.mp hq with rfl | hq'
          · obtain ⟨p, hp, h1, h2⟩ := h
            exact Or.inl (Or.inr ⟨p, hp, h1, h2⟩)
          · exact Or.inr ⟨q, hq', h⟩

theorem mem_allocated_blocks (epb : Nat) (indexes : List Nat)
    (read : Nat → List BitmapEntry) (x : Nat) :
    x ∈ allocated_blocks epb indexes read ↔
      ∃ info ∈ infosOf indexes, ∃ p ∈ (read info.loc).enum,
        p.2 ≠ BitmapEntry.Small 0 ∧ x = (info.key * epb + p.1) % 2 ^ 32 := by
  unfold allocated_blocks
  rw [mem_outer_fold]
  simp only [Finset.not_mem_empty, false_or]
  constructor
  · rintro ⟨info, hmem, h⟩
    exact ⟨info, (List.perm_insertionSort _ _).mem_iff.mp hmem, h⟩
  · rintro ⟨info, hmem, h⟩
    exact ⟨info, (List.perm_insertionSort _ _).mem_iff.mpr hmem, h⟩

/-- C5: for every metadata index and bitmap contents (with bitmaps no
longer than `ENTRIES_PER_BITMAP` and all bit positions fitting in the
32-bit output bitmap), `allocated_blocks` sets the bit at position
`key * ENTRIES_PER_BITMAP + i` for the index entry with key `key` and
bitmap entry `i` iff that entry is non-zero — so overflow entries count
as allocated and no exact reference counts are produced. -/
theorem allocated_blocks_spec (epb : Nat) (indexes : List Nat)
    (read : Nat → List BitmapEntry)
    (hlen : ∀ loc, (read loc).length ≤ epb)
    (hfit : indexes.length * epb ≤ 2 ^ 32)
    (key loc i : Nat) (e : BitmapEntry)
    (hkey : indexes[key]? = some loc)
    (hent : (read loc)[i]? = some e) :
    (key * epb + i ∈ allocated_blocks epb indexes read ↔
      e ≠ BitmapEntry.Small 0) := by
  have hkeylt : key < indexes.length := by
    by_contra h
    rw [List.getElem?_eq_none (Nat.not_lt.mp h)] at hkey
    exact absurd hkey (by simp)
  have hilt : i < (read loc).length := by
    by_contra h
    rw [List.getElem?_eq_none (Nat.not_lt.mp h)] at hent
    exact absurd hent (by simp)
  have hiepb : i < epb := lt_of_lt_of_le hilt (hlen loc)
  have hepb0 : 0 < epb := lt_of_le_of_lt (Nat.zero_le i) hiepb
  have hposgen : ∀ k j : Nat, k < indexes.length → j < epb →
      k * epb + j < 2 ^ 32 := by
    intro k j hk hj
    calc k * epb + j < k * epb + epb := by omega
      _ = (k + 1) * epb := by ring
      _ ≤ indexes.length * epb := Nat.mul_le_mul_right _ (by omega)
      _ ≤ 2 ^ 32 := hfit
  have hmod : (key * epb + i) % 2 ^ 32 = key * epb + i :=
    Nat.mod_eq_of_lt (hposgen key i hkeylt hiepb)
  rw [mem_allocated_blocks]
  constructor
  · rintro ⟨info, hinfo, p, hp, hne, hx⟩
    have hpair : (info.key, info.loc) ∈ indexes.enum := by
      obtain ⟨q, hq, rfl⟩ := List.mem_map.mp hinfo
      simpa using hq
    have hloc' : indexes[info.key]? = some info.loc :=
      List.mem_enum_iff_getElem?.mp hpair
    have hkeylt' : info.key < indexes.length := by
      by_contra h
      rw [List.getElem?_eq_none (Nat.not_lt.mp h)] at hloc'
      exact absurd hloc' (by simp)
    have hpe : (read info.loc)[p.1]? = some p.2 :=
      List.mem_enum_iff_getElem?.mp hp
    have hilt2 : p.1 < (read info.loc).length := by
      by_contra h
      rw [List.getElem?_eq_none (Nat.not_lt.mp h)] at hpe
      exact absurd hpe (by simp)
    have hiepb2 : p.1 < epb := lt_of_lt_of_le hilt2 (hlen _)
    rw [Nat.mod_eq_of_lt (hposgen info.key p.1 hkeylt' hiepb2)] at hx
    have hx' : i + epb * key = p.1 + epb * info.key := by
      have h1 : i + epb * key = key * epb + i := by ring
      have h2 : p.1 + epb * info.key = info.key * epb + p.1 := by ring
      rw [h1, h2, ← hx]
    have hk : key = info.key := by
      have := congrArg (· / epb) hx'
      simpa [Nat.add_mul_div_left _ _ hepb0, Nat.div_eq_of_lt hiepb,
        Nat.div_eq_of_lt hiepb2] using this
    have hi : i = p.1 := by
      have := congrArg (· % epb) hx'
      simpa [Nat.add_mul_mod_self_left, Nat.mod_eq_of_lt hiepb,
        Nat.mod_eq_of_lt hiepb2] using this
    rw [← hk] at hloc'
    rw [hkey] at hloc'
    have hl : loc = info.loc := Option.some.inj hloc'
    rw [← hl, ← hi] at hpe
    rw [hent] at hpe
    have he : e = p.2 := Option.some.inj hpe
    rw [he]
    exact hne
  · intro hne
    refine ⟨⟨key, loc⟩, ?_, (i, e), ?_, hne, hmod.symm⟩
    · exact List.mem_map.mpr ⟨(key, loc), List.mem_enum_iff_getElem?.mpr hkey, rfl⟩
    · exact List.mem_enum_iff_getElem?.mpr hent

/-- Witness for C5: one index entry (key 0, bitmap at block 5) whose
bitmap holds a zero entry and an overflow entry; the overflow entry's
bit is set. -/
theorem allocated_blocks_spec_witness :
    1 ∈ allocated_blocks 2 [5]
      (fun _ => [BitmapEntry.Small 0, BitmapEntry.Overflow]) :=
  (allocated_blocks_spec 2 [5]
      (fun _ => [BitmapEntry.Small 0, BitmapEntry.Overflow])
      (fun _ => Nat.le.refl) (by decide) 0 5 1 BitmapEntry.Overflow rfl rfl).mpr
    (by decide)

theorem emit_leaves_events (ld : Nat → List (Nat × Nat × Nat)) (leaves : List Nat) :
    ∀ e ∈ emit_leaves ld leaves, is_map_or_ref e = true := by
  intro e he
  obtain ⟨m, _, rfl⟩ := List.mem_map.mp he
  rfl

theorem emit_entries_go_events (ld : Nat → List (Nat × Nat × Nat)) :
    ∀ (entries : List Entry) (acc : List Nat),
      ∀ e ∈ emit_entries_go ld entries acc, is_map_or_ref e = true := by
  intro entries
  induction entries with
  | nil =>
      intro acc e he
      simp only [emit_entries_go] at he
      split at he
      · simp at he
      · exact emit_leaves_events ld acc e he
  | cons ent rest ih =>
      intro acc e he
      cases ent with
      | Leaf b =>
          simp only [emit_entries_go] at he
          exact ih _ e he
      | Ref id =>
          simp only [emit_entries_go] at he
          rcases List.mem_append.mp he with h | h
          · split at h
            · simp at h
            · exact emit_leaves_events ld acc e h
          · rcases List.mem_cons.mp h with rfl | h'
            · rfl
            · exact ih [] e h'

theorem emit_entries_events (ld : Nat → List (Nat × Nat × Nat))
    (entries : List Entry) :
    ∀ e ∈ emit_entries ld entries, is_map_or_ref e = true :=
  emit_entries_go_events ld entries []

theorem foldl_append_flatten {α β : Type} (f : β → List α) (l : List β) :
    ∀ init : List α,
      l.foldl (fun out x => out ++ f x) init = init ++ (l.map f).flatten := by
  induction l with
  | nil => intro init; simp
  | cons x rest ih =>
      intro init
      simp only [List.foldl_cons, List.map_cons, List.flatten_cons]
      rw [ih]
      simp [List.append_assoc]

theorem append_pos_lt {α : Type} {L1 L2 : List α} {P Q : α → Prop}
    (h1 : ∀ e ∈ L1, ¬ Q e) (h2 : ∀ e ∈ L2, ¬ P e)
    {i j : Nat} {x y : α}
    (hi : (L1 ++ L2)[i]? = some x) (hx : P x)
    (hj : (L1 ++ L2)[j]? = some y) (hy : Q y) : i < j := by
  have hi' : i < L1.length := by
    by_contra h
    rw [List.getElem?_append_right (Nat.not_lt.mp h)] at hi
    exact h2 x (List.getElem?_mem hi) hx
  have hj' : L1.length ≤ j := by
    by_contra h
    rw [List.getElem?_append] at hj
    rw [if_pos (Nat.not_le.mp h)] at hj
    exact h1 y (List.getElem?_mem hj) hy
  omega

/-- C6: the event stream of `dump_metadata` starts with `superblock_b`,
continues with one `def_shared_b`..`def_shared_e` block per shared
definition in list order, then one `device_b`..`device_e` block per
device in list order, and ends with `superblock_e` and `eof`; in
particular every `def_shared_b` event occurs strictly before every
`device_b` event. -/
theorem dump_metadata_stream_spec (ld : Nat → List (Nat × Nat × Nat))
    (sb : ir.Superblock) (md : Metadata) :
    dump_metadata ld sb md =
      Event.superblock_b sb ::
        ((md.defs.map (fun d => Event.def_shared_b d.def_id ::
            emit_entries ld d.map.entries ++ [Event.def_shared_e])).flatten ++
          ((md.devs.map (fun dev => Event.device_b (device_ir dev) ::
            emit_entries ld dev.map.entries ++ [Event.device_e])).flatten ++
            [Event.superblock_e, Event.eof]))
    ∧ (∀ (i j n : Nat) (dv : ir.Device),
        (dump_metadata ld sb md)[i]? = some (Event.def_shared_b n) →
        (dump_metadata ld sb md)[j]? = some (Event.device_b dv) → i < j) := by
  have hshape : dump_metadata ld sb md =
      Event.superblock_b sb ::
        ((md.defs.map (fun d => Event.def_shared_b d.def_id ::
            emit_entries ld d.map.entries ++ [Event.def_shared_e])).flatten ++
          ((md.devs.map (fun dev => Event.device_b (device_ir dev) ::
            emit_entries ld dev.map.entries ++ [Event.device_e])).flatten ++
            [Event.superblock_e, Event.eof])) := by
    unfold dump_metadata
    simp only [foldl_append_flatten]
    simp [List.append_assoc]
  refine ⟨hshape, ?_⟩
  intro i j n dv hi hj
  have hsplit : dump_metadata ld sb md =
      (Event.superblock_b sb ::
        (md.defs.map (fun d => Event.def_shared_b d.def_id ::
          emit_entries ld d.map.entries ++ [Event.def_shared_e])).flatten) ++
      ((md.devs.map (fun dev => Event.device_b (device_ir dev) ::
          emit_entries ld dev.map.entries ++ [Event.device_e])).flatten ++
        [Event.superblock_e, Event.eof]) := by
    rw [hshape]
    simp
  rw [hsplit] at hi hj
  refine append_pos_lt (P := fun e => ∃ n, e = Event.def_shared_b n)
    (Q := fun e => ∃ dv, e = Event.device_b dv) ?_ ?_ hi ⟨n, rfl⟩ hj ⟨dv, rfl⟩
  · intro e he
    rintro ⟨dv', rfl⟩
    rcases List.mem_cons.mp he with h | h
    · exact Event.noConfusion h
    · obtain ⟨blk, hblk, hein⟩ := List.mem_flatten.mp h
      obtain ⟨df, _, rfl⟩ := List.mem_map.mp hblk
      rcases List.mem_cons.mp hein with h' | h'
      · exact Event.noConfusion h'
      · rcases List.mem_append.mp h' with h2 | h2
        · have := emit_entries_events ld df.map.entries _ h2
          simp [is_map_or_ref] at this
        · rcases List.mem_singleton.mp h2 with h3
          exact Event.noConfusion h3
  · intro e he
    rintro ⟨n', rfl⟩
    rcases List.mem_append.mp he with h | h
    · obtain ⟨blk, hblk, hein⟩ := List.mem_flatten.mp h
      obtain ⟨dev, _, rfl⟩ := List.mem_map.mp hblk
      rcases List.mem_cons.mp hein with h' | h'
      · exact Event.noConfusion h'
      · rcases List.mem_append.mp h' with h2 | h2
        · have := emit_entries_events ld dev.map.entries _ h2
          simp [is_map_or_ref] at this
        · rcases List.mem_singleton.mp h2 with h3
          exact Event.noConfusion h3
    · rcases List.mem_cons.mp h with h' | h'
      · exact Event.noConfusion h'
      · rcases List.mem_singleton.mp h' with h3
        exact Event.noConfusion h3

/-- Witness for C6: a metadata with one shared definition and one device;
its `def_shared_b` event sits at index 1, its `device_b` event at index
3, and the theorem places the former strictly before the latter. -/
theorem dump_metadata_stream_spec_witness :
    (dump_metadata (fun _ => []) ⟨"", 0, 1, none, some 2, 128, 1024, none⟩
        ⟨[⟨0, ⟨[]⟩⟩], [⟨1, ⟨0, 0, 0, 0⟩, ⟨[]⟩⟩]⟩)[1]? =
          some (Event.def_shared_b 0)
    ∧ (dump_metadata (fun _ => []) ⟨"", 0, 1, none, some 2, 128, 1024, none⟩
        ⟨[⟨0, ⟨[]⟩⟩], [⟨1, ⟨0, 0, 0, 0⟩, ⟨[]⟩⟩]⟩)[3]? =
          some (Event.device_b ⟨1, 0, 0, 0, 0⟩)
    ∧ (1 : Nat) < 3 := by
  refine ⟨rfl, rfl, ?_⟩
  exact (dump_metadata_stream_spec (fun _ => [])
      ⟨"", 0, 1, none, some 2, 128, 1024, none⟩
      ⟨[⟨0, ⟨[]⟩⟩], [⟨1, ⟨0, 0, 0, 0⟩, ⟨[]⟩⟩]⟩).2 1 3 0 ⟨1, 0, 0, 0, 0⟩ rfl rfl
